import Mathlib

/-!
Shallow embedding of the opengl-perfomance-test repository.

The embedding covers the two cores of the program:
the render worker with its upload task queue
(src/multi_thread_test/src/render_thread.cpp) and the terrain patch
generator with its gradient-noise field
(src/shared/src/terrain_generator.cpp).

Modelling conventions: pointers are natural-number addresses, machine
sizes are natural numbers with explicit reductions modulo powers of two
where the code shifts or masks, float arithmetic is modelled by exact
rational arithmetic (float literals such as 0.1f are read as the decimal
they denote), and the square root and normalisation steps are modelled
over the real numbers.  The permutation table built by initializeNoise
is an arbitrary function parameter, since the source shuffles it with a
nondeterministic seed.
-/

/-- Task kinds of RenderTask::Type in render_thread.h. -/
inductive TaskType
  | uploadPatch
  | updateBuffer
  | renderPatch
  | cleanup
  deriving DecidableEq

/-- RenderTask from render_thread.h: a kind, a patch identifier, one untyped
data pointer and one size field. -/
structure RenderTask where
  type : TaskType
  patchId : ℤ
  data : ℕ
  dataSize : ℕ
  deriving DecidableEq

/-- RenderThread::submitPatchUpload (render_thread.cpp lines 86 to 96):
encodedSize packs indexSize into the high 32 bits and vertexSize into the
low 32 bits of one 64-bit field, and the queued task stores only the
vertexData pointer; the indexData pointer is not stored anywhere. -/
def submitPatchUpload (patchId : ℤ) (vertexData vertexSize indexData indexSize : ℕ) :
    RenderTask :=
  let encodedSize := ((indexSize % 2 ^ 32) <<< 32) ||| (vertexSize % 2 ^ 64)
  { type := TaskType.uploadPatch, patchId := patchId, data := vertexData,
    dataSize := encodedSize }

/-- The argument record of a RenderThread::uploadPatchData invocation. -/
structure UploadCall where
  patchId : ℤ
  vertexPtr : ℕ
  vertexLen : ℕ
  indexPtr : ℕ
  indexLen : ℕ
  deriving DecidableEq

/-- RenderThread::processTask (render_thread.cpp lines 164 to 191): decodes
vertexSize from the low 32 bits and indexSize from the high 32 bits of
task.dataSize; for UPLOAD_PATCH it invokes uploadPatchData with task.data as
the vertex pointer and with reinterpret_cast of indexSize as the index
pointer.  The other three kinds are no-ops (modelled as none). -/
def processTask (task : RenderTask) : Option UploadCall :=
  let vertexSize := task.dataSize &&& 0xFFFFFFFF
  let indexSize := task.dataSize >>> 32
  match task.type with
  | TaskType.uploadPatch =>
      some { patchId := task.patchId, vertexPtr := task.data, vertexLen := vertexSize,
             indexPtr := indexSize, indexLen := indexSize }
  | TaskType.updateBuffer => none
  | TaskType.renderPatch => none
  | TaskType.cleanup => none

/-- Observable side effects of RenderThread::stop. -/
inductive StopEffect
  | joinThread
  | destroyContext
  deriving DecidableEq

/-- The fields of RenderThread that stop reads or writes: the running flag,
the stop signal, joinability of the worker thread, and whether the auxiliary
worker context is live (non-null). -/
structure RTState where
  isRunning : Bool
  shouldStop : Bool
  threadJoinable : Bool
  workerContext : Bool
  deriving DecidableEq

/-- RenderThread::stop (render_thread.cpp lines 50 to 76): early return if not
running; otherwise set the stop signal, join the worker thread if joinable,
destroy the worker context if non-null and null it, and clear the running
flag.  The returned list records the externally observable effects. -/
def stop (s : RTState) : RTState × List StopEffect :=
  if s.isRunning = false then (s, [])
  else
    let s1 : RTState := { s with shouldStop := true }
    let joinStep : RTState × List StopEffect :=
      if s1.threadJoinable then ({ s1 with threadJoinable := false }, [StopEffect.joinThread])
      else (s1, [])
    let ctxStep : RTState × List StopEffect :=
      if joinStep.1.workerContext then
        ({ joinStep.1 with workerContext := false }, [StopEffect.destroyContext])
      else (joinStep.1, [])
    ({ ctxStep.1 with isRunning := false }, joinStep.2 ++ ctxStep.2)

/-- Claim C1 (code bug): for the task created by submitPatchUpload the worker
is supposed to upload the submitted index bytes verbatim, but the queued task
never stores the indexData pointer; at a concrete submission with vertex
pointer 4096 and index pointer 8192 the worker's upload call receives index
pointer 24 (the index byte length reinterpreted as a pointer), not 8192. -/
theorem processTask_submitPatchUpload_loses_index_data :
    processTask (submitPatchUpload 0 4096 32 8192 24) =
      some { patchId := 0, vertexPtr := 4096, vertexLen := 32,
             indexPtr := 24, indexLen := 24 } ∧
    (24 : ℕ) ≠ 8192 := by
  constructor
  · decide
  · decide

/-- Claim C9: stop is idempotent; a second call in succession returns the
same state, performs no observable effect, and the auxiliary context is
destroyed at most once across both calls. -/
theorem stop_idempotent (s : RTState) :
    (stop (stop s).1).1 = (stop s).1 ∧
    (stop (stop s).1).2 = [] ∧
    ((stop s).2 ++ (stop (stop s).1).2).count StopEffect.destroyContext ≤ 1 := by
  rcases s with ⟨ir, ss, tj, wc⟩
  cases ir <;> cases ss <;> cases tj <;> cases wc <;> decide

/-- Phase of the main thread in the submit-then-wait scenario of the
barrier and ordering claims: still submitting, blocked inside
waitForCompletion, or returned from it. -/
inductive MainPhase
  | submitting
  | waiting
  | returned
  deriving DecidableEq

/-- Interleaved state of the task queue, the worker loop of
RenderThread::threadFunction, and a main thread that submits a fixed list of
task identifiers and then calls waitForCompletion.  inFlight holds a task
that the worker has popped from the queue but not yet finished processing
(threadFunction pops under the lock, then unlocks, then runs processTask and
increments processedTasks). -/
structure SysState where
  toSubmit : List ℕ
  queue : List ℕ
  inFlight : Option ℕ
  processed : List ℕ
  counter : ℕ
  mainPhase : MainPhase
  deriving DecidableEq

/-- One interleaving step of the two threads.  submit and beginWait are main
thread actions (submitTask appends under the lock; waitForCompletion is
called once all submissions are done).  endWait fires whenever the wait
predicate of waitForCompletion, queue emptiness, holds — the condition
variable wait checks its predicate on entry and on every wakeup.  pop and
finish are the worker's dequeue under the lock and its subsequent
processing with the counter increment. -/
inductive SysStep : SysState → SysState → Prop
  | submit (s : SysState) (t : ℕ) (rest : List ℕ) :
      s.toSubmit = t :: rest → s.mainPhase = MainPhase.submitting →
      SysStep s { s with toSubmit := rest, queue := s.queue ++ [t] }
  | beginWait (s : SysState) :
      s.toSubmit = [] → s.mainPhase = MainPhase.submitting →
      SysStep s { s with mainPhase := MainPhase.waiting }
  | endWait (s : SysState) :
      s.mainPhase = MainPhase.waiting → s.queue = [] →
      SysStep s { s with mainPhase := MainPhase.returned }
  | pop (s : SysState) (t : ℕ) (rest : List ℕ) :
      s.inFlight = none → s.queue = t :: rest →
      SysStep s { s with inFlight := some t, queue := rest }
  | finish (s : SysState) (t : ℕ) :
      s.inFlight = some t →
      SysStep s { s with inFlight := none, processed := s.processed ++ [t],
                         counter := s.counter + 1 }

/-- Reachability in the interleaving semantics. -/
def SysReach : SysState → SysState → Prop := Relation.ReflTransGen SysStep

/-- Initial state for a run that will submit the identifiers 0, ..., N-1 in
order and then wait: the queue is empty, nothing is processed, and the
processed-task counter was reset to zero by start. -/
def initState (N : ℕ) : SysState :=
  { toSubmit := List.range N, queue := [], inFlight := none, processed := [],
    counter := 0, mainPhase := MainPhase.submitting }

/-- All task identifiers of a state, in pipeline order: processed first,
then the one in flight, then the queue, then the not-yet-submitted ones. -/
def tasksInOrder (s : SysState) : List ℕ :=
  s.processed ++ s.inFlight.toList ++ s.queue ++ s.toSubmit

theorem sysStep_tasksInOrder {s s' : SysState} (h : SysStep s s') :
    tasksInOrder s' = tasksInOrder s := by
  cases h with
  | submit t rest h1 h2 => simp [tasksInOrder, h1]
  | beginWait h1 h2 => rfl
  | endWait h1 h2 => rfl
  | pop t rest h1 h2 => simp [tasksInOrder, h1, h2]
  | finish t h1 => simp [tasksInOrder, h1]

theorem sysReach_tasksInOrder {s s' : SysState} (h : SysReach s s') :
    tasksInOrder s' = tasksInOrder s := by
  induction h with
  | refl => rfl
  | tail _ hstep ih => exact (sysStep_tasksInOrder hstep).trans ih

/-- Claim C4: in every state reachable from a run submitting identifiers
0, ..., N-1 in order, the processed identifiers are a prefix of the
submitted sequence, and once everything is submitted, dequeued and finished
the processed sequence equals the submitted one — no loss, duplication or
reordering. -/
theorem fifo_processing_order {N : ℕ} {s : SysState}
    (h : SysReach (initState N) s) :
    (∃ rest, s.processed ++ rest = List.range N) ∧
    (s.toSubmit = [] → s.queue = [] → s.inFlight = none →
      s.processed = List.range N) := by
  have key : tasksInOrder s = List.range N := by
    rw [sysReach_tasksInOrder h]
    simp [tasksInOrder, initState]
  constructor
  · refine ⟨s.inFlight.toList ++ s.queue ++ s.toSubmit, ?_⟩
    simpa [tasksInOrder, List.append_assoc] using key
  · intro h1 h2 h3
    simpa [tasksInOrder, h1, h2, h3] using key

/-- Witness for claim C4 at the concrete reachable state reached by
the empty step sequence from the initial state with N = 3. -/
theorem fifo_processing_order_witness :
    (∃ rest, (initState 3).processed ++ rest = List.range 3) ∧
    ((initState 3).toSubmit = [] → (initState 3).queue = [] →
      (initState 3).inFlight = none →
      (initState 3).processed = List.range 3) :=
  fifo_processing_order Relation.ReflTransGen.refl

/-- Claim C2 (code bug): one upload task is submitted and then
waitForCompletion is called, yet an interleaving exists in which
waitForCompletion has returned while the processed-task counter is still 0,
because threadFunction removes a task from the queue before processing it
and waitForCompletion only waits for queue emptiness.  The trace: submit
task 0; the worker pops it (queue now empty, task in flight); the main
thread calls waitForCompletion, whose wait predicate sees an empty queue
and returns at once. -/
theorem waitForCompletion_can_return_before_processing :
    SysReach (initState 1)
      { toSubmit := [], queue := [], inFlight := some 0, processed := [],
        counter := 0, mainPhase := MainPhase.returned } ∧
    (0 : ℕ) ≠ 1 := by
  constructor
  · have h1 : SysStep (initState 1)
        { toSubmit := [], queue := [0], inFlight := none, processed := [],
          counter := 0, mainPhase := MainPhase.submitting } :=
      SysStep.submit (initState 1) 0 [] (by decide) rfl
    have h2 : SysStep
        { toSubmit := [], queue := [0], inFlight := none, processed := [],
          counter := 0, mainPhase := MainPhase.submitting }
        { toSubmit := [], queue := [], inFlight := some 0, processed := [],
          counter := 0, mainPhase := MainPhase.submitting } :=
      SysStep.pop _ 0 [] rfl rfl
    have h3 : SysStep
        { toSubmit := [], queue := [], inFlight := some 0, processed := [],
          counter := 0, mainPhase := MainPhase.submitting }
        { toSubmit := [], queue := [], inFlight := some 0, processed := [],
          counter := 0, mainPhase := MainPhase.waiting } :=
      SysStep.beginWait _ rfl rfl
    have h4 : SysStep
        { toSubmit := [], queue := [], inFlight := some 0, processed := [],
          counter := 0, mainPhase := MainPhase.waiting }
        { toSubmit := [], queue := [], inFlight := some 0, processed := [],
          counter := 0, mainPhase := MainPhase.returned } :=
      SysStep.endWait _ rfl rfl
    exact Relation.ReflTransGen.tail
      (Relation.ReflTransGen.tail
        (Relation.ReflTransGen.tail (Relation.ReflTransGen.single h1) h2) h3) h4
  · decide

/-- Truncation toward zero, the semantics of static_cast from float to int
applied to a rational. -/
def truncInt (q : ℚ) : ℤ :=
  if 0 ≤ q then ⌊q⌋ else ⌈q⌉

/-- Index into the permutation table: the integer part of a scaled
coordinate masked to eight bits, the mask acting on the two's-complement
representation, hence the nonnegative residue modulo 256. -/
def permIndex (q : ℚ) : ℕ :=
  (truncInt q % 256).toNat

/-- TerrainGenerator::grad: pick two of the inputs x, z (or zero) from the
low four bits of the hash and combine them with signs from bits 0 and 1. -/
def grad (hash : ℕ) (x z : ℚ) : ℚ :=
  let h := hash &&& 15
  let u := if h < 8 then x else z
  let v := if h < 4 then z else if h = 12 ∨ h = 14 then x else (0 : ℚ)
  (if h &&& 1 = 0 then u else -u) + (if h &&& 2 = 0 then v else -v)

/-- Loop state of TerrainGenerator::perlinNoise: running total, current
frequency and amplitude, and the accumulated maximum amplitude. -/
structure NoiseAccum where
  total : ℚ
  frequency : ℚ
  amplitude : ℚ
  maxValue : ℚ

/-- One iteration of the octave loop of TerrainGenerator::perlinNoise. -/
def octaveStep (perm : ℕ → ℕ) (x z persistence : ℚ) (acc : NoiseAccum) : NoiseAccum :=
  { total := acc.total +
      grad (perm (permIndex (x * acc.frequency)) + perm (permIndex (z * acc.frequency)))
        (x * acc.frequency) (z * acc.frequency) * acc.amplitude,
    maxValue := acc.maxValue + acc.amplitude,
    amplitude := acc.amplitude * persistence,
    frequency := acc.frequency * 2 }

/-- The octave loop of TerrainGenerator::perlinNoise after n iterations,
starting from total 0, frequency 1, amplitude 1, maxValue 0. -/
def perlinOctaves (perm : ℕ → ℕ) (x z persistence : ℚ) : ℕ → NoiseAccum
  | 0 => { total := 0, frequency := 1, amplitude := 1, maxValue := 0 }
  | n + 1 => octaveStep perm x z persistence (perlinOctaves perm x z persistence n)

/-- TerrainGenerator::perlinNoise: run the octave loop and divide the total
by the accumulated maximum amplitude. -/
def perlinNoise (perm : ℕ → ℕ) (x z : ℚ) (octaves : ℕ) (persistence : ℚ) : ℚ :=
  let acc := perlinOctaves perm x z persistence octaves
  acc.total / acc.maxValue

/-- TerrainGenerator::getHeight: evaluate the noise at one tenth of the
world coordinates with 4 octaves and persistence one half, scaled by the
configured height scale. -/
def getHeight (perm : ℕ → ℕ) (heightScale : ℚ) (x z : ℚ) : ℚ :=
  perlinNoise perm (x * (1 / 10)) (z * (1 / 10)) 4 (1 / 2) * heightScale

/-- Claim C5 (code bug): the spec requires the absolute height never to
exceed the configured height scale, the octave sum being normalized into
approximately the interval from -1 to 1; but grad is applied to the raw
scaled coordinates rather than to cell-local offsets, so its magnitude
grows with the coordinates and the normalization by the accumulated
amplitude does not bound the sum.  With the identity permutation table (a
legal shuffle outcome) and height scale 1, the height at (1000, 0) is 160,
violating the bound by a factor of 160. -/
theorem getHeight_exceeds_heightScale :
    getHeight (fun n => n) 1 1000 0 = 160 ∧
    ¬ |getHeight (fun n => n) 1 1000 0| ≤ 1 := by
  have h : getHeight (fun n => n) 1 1000 0 = 160 := by
    norm_num [getHeight, perlinNoise, perlinOctaves, octaveStep, grad, permIndex, truncInt]
    simp +decide
    norm_num
  refine ⟨h, ?_⟩
  rw [h]
  norm_num

/-- TerrainGenerator::calculateNormal's central-difference vector before
normalization: delta is 0.1, the components are the height differences at
plus and minus delta and the fixed middle component 2 times delta. -/
def centralDiff (perm : ℕ → ℕ) (heightScale x z : ℚ) : ℚ × ℚ × ℚ :=
  (getHeight perm heightScale (x - 1 / 10) z - getHeight perm heightScale (x + 1 / 10) z,
   2 * (1 / 10),
   getHeight perm heightScale x (z - 1 / 10) - getHeight perm heightScale x (z + 1 / 10))

/-- glm::normalize: divide each component by the Euclidean length.  No guard
against a zero vector is present in the source; the model divides by the
square root as written. -/
noncomputable def normalizeV (v : ℝ × ℝ × ℝ) : ℝ × ℝ × ℝ :=
  let len := Real.sqrt (v.1 ^ 2 + v.2.1 ^ 2 + v.2.2 ^ 2)
  (v.1 / len, v.2.1 / len, v.2.2 / len)

/-- TerrainGenerator::calculateNormal: the central-difference vector,
normalized. -/
noncomputable def calculateNormal (perm : ℕ → ℕ) (heightScale x z : ℚ) : ℝ × ℝ × ℝ :=
  let n := centralDiff perm heightScale x z
  normalizeV ((n.1 : ℝ), (n.2.1 : ℝ), (n.2.2 : ℝ))

theorem normalizeV_unit (v : ℝ × ℝ × ℝ)
    (h : v.1 ^ 2 + v.2.1 ^ 2 + v.2.2 ^ 2 ≠ 0) :
    (normalizeV v).1 ^ 2 + (normalizeV v).2.1 ^ 2 + (normalizeV v).2.2 ^ 2 = 1 := by
  have hs : 0 ≤ v.1 ^ 2 + v.2.1 ^ 2 + v.2.2 ^ 2 := by positivity
  have hlen : Real.sqrt (v.1 ^ 2 + v.2.1 ^ 2 + v.2.2 ^ 2) ≠ 0 := by
    rw [Real.sqrt_ne_zero' ]
    exact lt_of_le_of_ne hs (Ne.symm h)
  have hsq : Real.sqrt (v.1 ^ 2 + v.2.1 ^ 2 + v.2.2 ^ 2) ^ 2 =
      v.1 ^ 2 + v.2.1 ^ 2 + v.2.2 ^ 2 := Real.sq_sqrt hs
  simp only [normalizeV, div_pow]
  rw [div_add_div_same, div_add_div_same, hsq, div_self h]

/-- Claim C6: the central-difference vector always has middle component
one fifth, so it is never near zero and normalization never divides by
zero; the returned normal has squared Euclidean length exactly one (hence
length 1, well within the 1e-4 tolerance); and in a flat, noise-canceling
region, where both height differences vanish, the result is exactly the up
vector. -/
theorem calculateNormal_unit_length (perm : ℕ → ℕ) (heightScale x z : ℚ) :
    (centralDiff perm heightScale x z).2.1 = 1 / 5 ∧
    ((calculateNormal perm heightScale x z).1 ^ 2 +
      (calculateNormal perm heightScale x z).2.1 ^ 2 +
      (calculateNormal perm heightScale x z).2.2 ^ 2 = 1) ∧
    ((centralDiff perm heightScale x z).1 = 0 → (centralDiff perm heightScale x z).2.2 = 0 →
      calculateNormal perm heightScale x z = (0, 1, 0)) := by
  refine ⟨by norm_num [centralDiff], ?_, ?_⟩
  · apply normalizeV_unit
    have hmid : (((centralDiff perm heightScale x z).2.1 : ℚ) : ℝ) = 1 / 5 := by
      norm_num [centralDiff]
    intro hcontra
    have h1 : (0 : ℝ) < (((centralDiff perm heightScale x z).1 : ℚ) : ℝ) ^ 2 +
        (((centralDiff perm heightScale x z).2.1 : ℚ) : ℝ) ^ 2 +
        (((centralDiff perm heightScale x z).2.2 : ℚ) : ℝ) ^ 2 := by
      rw [hmid]
      positivity
    exact absurd hcontra (ne_of_gt h1)
  · intro h1 h2
    have hmid : (centralDiff perm heightScale x z).2.1 = 1 / 5 := by
      norm_num [centralDiff]
    show normalizeV _ = _
    rw [h1, hmid, h2]
    have h25 : Real.sqrt (((0 : ℚ) : ℝ) ^ 2 + ((1 / 5 : ℚ) : ℝ) ^ 2 + ((0 : ℚ) : ℝ) ^ 2) =
        1 / 5 := by
      have : (((0 : ℚ) : ℝ) ^ 2 + ((1 / 5 : ℚ) : ℝ) ^ 2 + ((0 : ℚ) : ℝ) ^ 2) =
          (1 / 5 : ℝ) ^ 2 := by push_cast; ring
      rw [this, Real.sqrt_sq (by norm_num : (0 : ℝ) ≤ 1 / 5)]
    simp only [normalizeV, h25]
    norm_num

/-- Witness for claim C6 at height scale 0, where the terrain is flat and
both height differences vanish, exercising the fallback-to-up-vector case. -/
theorem calculateNormal_unit_length_witness :
    (centralDiff (fun n => n) 0 0 0).2.1 = 1 / 5 ∧
    ((calculateNormal (fun n => n) 0 0 0).1 ^ 2 +
      (calculateNormal (fun n => n) 0 0 0).2.1 ^ 2 +
      (calculateNormal (fun n => n) 0 0 0).2.2 ^ 2 = 1) ∧
    calculateNormal (fun n => n) 0 0 0 = (0, 1, 0) :=
  ⟨(calculateNormal_unit_length (fun n => n) 0 0 0).1,
   (calculateNormal_unit_length (fun n => n) 0 0 0).2.1,
   (calculateNormal_unit_length (fun n => n) 0 0 0).2.2
     (by norm_num [centralDiff, getHeight]) (by norm_num [centralDiff, getHeight])⟩

/-- Componentwise sum of two three-component vectors. -/
def vecAdd (a b : ℚ × ℚ × ℚ) : ℚ × ℚ × ℚ :=
  (a.1 + b.1, a.2.1 + b.2.1, a.2.2 + b.2.2)

/-- Componentwise division of a three-component vector by a scalar. -/
def vecDiv (a : ℚ × ℚ × ℚ) (c : ℚ) : ℚ × ℚ × ℚ :=
  (a.1 / c, a.2.1 / c, a.2.2 / c)

/-- glm::clamp. -/
def clampQ (x lo hi : ℚ) : ℚ := min (max x lo) hi

/-- glm::mix: linear blend of a and b by t. -/
def mixQ (a b t : ℚ) : ℚ := a * (1 - t) + b * t

/-- Euclidean distance of two rational points, over the reals. -/
noncomputable def distR (a b : ℚ × ℚ × ℚ) : ℝ :=
  Real.sqrt (((a.1 - b.1 : ℚ) : ℝ) ^ 2 + ((a.2.1 - b.2.1 : ℚ) : ℝ) ^ 2 +
    ((a.2.2 - b.2.2 : ℚ) : ℝ) ^ 2)

/-- TerrainVertex from terrain_generator.h: position, normal, texture
coordinate and color. -/
structure TerrainVertex where
  position : ℚ × ℚ × ℚ
  normal : ℝ × ℝ × ℝ
  texCoord : ℚ × ℚ
  color : ℚ × ℚ × ℚ

/-- TerrainPatch from terrain_generator.h (the device-handle and upload-state
fields play no part in generation and are omitted). -/
structure TerrainPatch where
  vertices : List TerrainVertex
  indices : List ℕ
  center : ℚ × ℚ × ℚ
  boundingRadius : ℝ
  lodLevel : ℤ

/-- One vertex of TerrainGenerator::createPatch's vertex loop at lattice
point (x, z): world position scaled by the patch world size member, height
from the noise field, central-difference normal, texture coordinate over the
grid size, and a color blended from valley dark green to peak light gray by
the height normalized into the unit interval over the range from minus to
plus the height scale, clamped. -/
noncomputable def makeVertex (perm : ℕ → ℕ) (gridSize : ℕ) (patchWorldSize heightScale : ℚ)
    (x z : ℕ) : TerrainVertex :=
  let worldX := (x : ℚ) * patchWorldSize
  let worldZ := (z : ℚ) * patchWorldSize
  let posY := getHeight perm heightScale worldX worldZ
  let heightFactor := clampQ ((posY + heightScale) / (2 * heightScale)) 0 1
  { position := (worldX, posY, worldZ),
    normal := calculateNormal perm heightScale worldX worldZ,
    texCoord := ((x : ℚ) / (gridSize : ℚ), (z : ℚ) / (gridSize : ℚ)),
    color := (mixQ (2 / 10) (9 / 10) heightFactor,
              mixQ (5 / 10) (9 / 10) heightFactor,
              mixQ (1 / 10) (7 / 10) heightFactor) }

/-- The six indices emitted for the grid quad at lattice column x, row z:
topLeft, bottomLeft, topRight, then topRight, bottomLeft, bottomRight. -/
def quadIndices (verticesPerRow : ℕ) (x z : ℕ) : List ℕ :=
  let topLeft := z * verticesPerRow + x
  let topRight := topLeft + 1
  let bottomLeft := (z + 1) * verticesPerRow + x
  let bottomRight := bottomLeft + 1
  [topLeft, bottomLeft, topRight, topRight, bottomLeft, bottomRight]

/-- The index loop of TerrainGenerator::createPatch: walk the quads row by
row (z outer, x inner) and append the two triangles of each quad. -/
def buildIndices (patchSize : ℕ) : List ℕ :=
  (List.range patchSize).flatMap fun z =>
    (List.range patchSize).flatMap fun x => quadIndices (patchSize + 1) x z

/-- TerrainGenerator::createPatch: vertices on the (patchSize+1) by
(patchSize+1) lattice starting at (startX, startZ) with z as the outer loop,
the index list, the centroid as the vertex-position sum divided by the vertex
count, and the bounding radius as the running maximum, from zero, of the
distances from the centroid. -/
noncomputable def createPatch (perm : ℕ → ℕ) (gridSize : ℕ) (patchWorldSize heightScale : ℚ)
    (startX startZ patchSize : ℕ) : TerrainPatch :=
  let vertices := (List.range (patchSize + 1)).flatMap fun dz =>
    (List.range (patchSize + 1)).map fun dx =>
      makeVertex perm gridSize patchWorldSize heightScale (startX + dx) (startZ + dz)
  let center := vecDiv (vertices.foldl (fun acc v => vecAdd acc v.position) (0, 0, 0))
    (vertices.length : ℚ)
  { vertices := vertices,
    indices := buildIndices patchSize,
    center := center,
    boundingRadius := (vertices.map fun v => distR v.position center).foldl max 0,
    lodLevel := 0 }

/-- TerrainGenerator::generateTerrain: patchesPerRow is the integer square
root of the constant 64 — eight — independent of any configured patch count;
patchVertexSize is the grid size divided by patchesPerRow; the patches are
created row-major. -/
noncomputable def generateTerrain (perm : ℕ → ℕ) (gridSize : ℕ)
    (patchWorldSize heightScale : ℚ) : List TerrainPatch :=
  let patchesPerRow := Nat.sqrt 64
  let patchVertexSize := gridSize / patchesPerRow
  (List.range patchesPerRow).flatMap fun row =>
    (List.range patchesPerRow).map fun col =>
      createPatch perm gridSize patchWorldSize heightScale
        (col * patchVertexSize) (row * patchVertexSize) patchVertexSize

/-- TerrainGenerator::getTotalVertices. -/
def getTotalVertices (patches : List TerrainPatch) : ℕ :=
  (patches.map fun p => p.vertices.length).sum

/-- TerrainGenerator::getTotalTriangles. -/
def getTotalTriangles (patches : List TerrainPatch) : ℕ :=
  (patches.map fun p => p.indices.length / 3).sum

theorem flatMap_const_drop {α : Type} (f : ℕ → List α) (c : ℕ) :
    ∀ (l : List ℕ), (∀ i ∈ l, (f i).length = c) →
    ∀ (j : ℕ) (hj : j < l.length),
      ∃ rest, (l.flatMap f).drop (j * c) = f (l.get ⟨j, hj⟩) ++ rest := by
  intro l
  induction l with
  | nil => intro _ j hj; exact absurd hj (by simp)
  | cons a t ih =>
      intro hf j hj
      cases j with
      | zero =>
          refine ⟨t.flatMap f, ?_⟩
          simp
      | succ k =>
          have hk : k < t.length := by simpa using hj
          obtain ⟨rest, hrest⟩ := ih (fun i hi => hf i (List.mem_cons_of_mem a hi)) k hk
          refine ⟨rest, ?_⟩
          have hlen : (f a).length = c := hf a (List.mem_cons_self a t)
          calc ((a :: t).flatMap f).drop ((k + 1) * c)
              = (f a ++ t.flatMap f).drop (c + k * c) := by
                rw [List.flatMap_cons]; ring_nf
            _ = (t.flatMap f).drop (k * c) := by
                rw [← hlen, ← List.drop_drop]
                simp
            _ = f ((a :: t).get ⟨k + 1, hj⟩) ++ rest := hrest

theorem flatMap_const_length {α : Type} (f : ℕ → List α) (c : ℕ) (l : List ℕ)
    (hf : ∀ i ∈ l, (f i).length = c) : (l.flatMap f).length = l.length * c := by
  induction l with
  | nil => simp
  | cons a t ih =>
      simp only [List.flatMap_cons, List.length_append, List.length_cons]
      rw [hf a (List.mem_cons_self a t), ih (fun i hi => hf i (List.mem_cons_of_mem a hi))]
      ring

/-- One row of the index loop: the quads of lattice row z, left to right. -/
def rowIndices (ps z : ℕ) : List ℕ :=
  (List.range ps).flatMap fun x => quadIndices (ps + 1) x z

theorem buildIndices_eq_rows (ps : ℕ) :
    buildIndices ps = (List.range ps).flatMap (rowIndices ps) := rfl

theorem rowIndices_length (ps z : ℕ) : (rowIndices ps z).length = ps * 6 := by
  rw [rowIndices, flatMap_const_length (fun x => quadIndices (ps + 1) x z) 6 _
    (fun i _ => rfl), List.length_range]

theorem buildIndices_length (ps : ℕ) : (buildIndices ps).length = ps ^ 2 * 6 := by
  rw [buildIndices_eq_rows,
    flatMap_const_length (rowIndices ps) (ps * 6) _ (fun i _ => rowIndices_length ps i),
    List.length_range]
  ring

theorem createPatch_vertices_length (perm : ℕ → ℕ) (gridSize : ℕ) (pw hs : ℚ)
    (sx sz ps : ℕ) :
    (createPatch perm gridSize pw hs sx sz ps).vertices.length = (ps + 1) ^ 2 := by
  show ((List.range (ps + 1)).flatMap fun dz => (List.range (ps + 1)).map fun dx =>
    makeVertex perm gridSize pw hs (sx + dx) (sz + dz)).length = (ps + 1) ^ 2
  rw [flatMap_const_length _ (ps + 1) _ (fun i _ => by simp), List.length_range]
  ring

/-- Claim C8: for every generated patch and every quad of its lattice at
column x, row z, the six indices emitted at offset 6 times (z times
patchSize plus x) — the quads are walked row by row — are exactly the two
triangles topLeft, bottomLeft, topRight and topRight, bottomLeft,
bottomRight. -/
theorem createPatch_quad_triangles (perm : ℕ → ℕ) (gridSize : ℕ) (pw hs : ℚ)
    (sx sz ps x z : ℕ) (hx : x < ps) (hz : z < ps) :
    ((createPatch perm gridSize pw hs sx sz ps).indices.drop (6 * (z * ps + x))).take 6 =
      [z * (ps + 1) + x, (z + 1) * (ps + 1) + x, z * (ps + 1) + x + 1,
       z * (ps + 1) + x + 1, (z + 1) * (ps + 1) + x, (z + 1) * (ps + 1) + x + 1] := by
  have hind : (createPatch perm gridSize pw hs sx sz ps).indices = buildIndices ps := rfl
  obtain ⟨r1, hr1⟩ := flatMap_const_drop (rowIndices ps) (ps * 6) (List.range ps)
    (fun i _ => rowIndices_length ps i) z (by simpa using hz)
  obtain ⟨r2, hr2⟩ := flatMap_const_drop (fun x => quadIndices (ps + 1) x z) 6 (List.range ps)
    (fun i _ => (rfl : (quadIndices (ps + 1) i z).length = 6)) x (by simpa using hx)
  have harith : 6 * (z * ps + x) = z * (ps * 6) + x * 6 := by ring
  rw [hind, buildIndices_eq_rows, harith, ← List.drop_drop, hr1, List.get_range]
  have hx6 : x * 6 ≤ (rowIndices ps z).length := by
    rw [rowIndices_length]
    omega
  rw [List.drop_append_eq_append_drop, Nat.sub_eq_zero_of_le hx6, List.drop_zero]
  simp only [rowIndices]
  rw [hr2, List.get_range, List.append_assoc]
  rfl

/-- Witness for claim C8 at the quad in column 1, row 1 of a patch of
lattice size 2. -/
theorem createPatch_quad_triangles_witness :
    ((createPatch (fun n => n) 16 1 1 0 0 2).indices.drop (6 * (1 * 2 + 1))).take 6 =
      [1 * (2 + 1) + 1, (1 + 1) * (2 + 1) + 1, 1 * (2 + 1) + 1 + 1,
       1 * (2 + 1) + 1 + 1, (1 + 1) * (2 + 1) + 1, (1 + 1) * (2 + 1) + 1 + 1] :=
  createPatch_quad_triangles (fun n => n) 16 1 1 0 0 2 1 1 (by decide) (by decide)

/-- Claim C10: every index emitted for a generated patch is strictly below
the number of vertices of that patch, so every triangle references only
existing vertices. -/
theorem createPatch_indices_valid (perm : ℕ → ℕ) (gridSize : ℕ) (pw hs : ℚ)
    (sx sz ps : ℕ) :
    ∀ i ∈ (createPatch perm gridSize pw hs sx sz ps).indices,
      i < (createPatch perm gridSize pw hs sx sz ps).vertices.length := by
  intro i hi
  rw [createPatch_vertices_length]
  have hi' : i ∈ buildIndices ps := hi
  simp [buildIndices, quadIndices] at hi'
  obtain ⟨z, hz, x, hx, hcase⟩ := hi'
  have hz' : z + 1 ≤ ps := hz
  have hx' : x + 1 ≤ ps := hx
  rcases hcase with h | h | h | h | h <;> subst h <;> nlinarith [hz', hx']

/-- Witness for claim C10: index 8 occurs in the patch of lattice size 2 and
is below its vertex count. -/
theorem createPatch_indices_valid_witness :
    8 ∈ (createPatch (fun n => n) 16 1 1 0 0 2).indices ∧
    8 < (createPatch (fun n => n) 16 1 1 0 0 2).vertices.length :=
  ⟨(by decide : (8 : ℕ) ∈ buildIndices 2),
   createPatch_indices_valid (fun n => n) 16 1 1 0 0 2 8
     (by decide : (8 : ℕ) ∈ buildIndices 2)⟩

theorem createPatch_indices_def (perm : ℕ → ℕ) (gridSize : ℕ) (pw hs : ℚ)
    (sx sz ps : ℕ) :
    (createPatch perm gridSize pw hs sx sz ps).indices = buildIndices ps := rfl

theorem sqrt_sixtyfour : Nat.sqrt 64 = 8 := by norm_num

theorem generateTerrain_length (perm : ℕ → ℕ) (gridSize : ℕ) (pw hs : ℚ) :
    (generateTerrain perm gridSize pw hs).length = 64 := by
  simp only [generateTerrain, sqrt_sixtyfour]
  rw [flatMap_const_length _ 8 _ (fun i _ => by simp), List.length_range]

theorem generateTerrain_mem (perm : ℕ → ℕ) (gridSize : ℕ) (pw hs : ℚ)
    (p : TerrainPatch) (hp : p ∈ generateTerrain perm gridSize pw hs) :
    ∃ row col, row < 8 ∧ col < 8 ∧
      p = createPatch perm gridSize pw hs (col * (gridSize / 8)) (row * (gridSize / 8))
        (gridSize / 8) := by
  simp only [generateTerrain, sqrt_sixtyfour, List.mem_flatMap, List.mem_map,
    List.mem_range] at hp
  obtain ⟨row, hrow, col, hcol, hpe⟩ := hp
  exact ⟨row, col, hrow, hcol, hpe.symm⟩

theorem sum_map_const_of_mem {β : Type} (L : List β) (g : β → ℕ) (c : ℕ)
    (h : ∀ b ∈ L, g b = c) : (L.map g).sum = L.length * c := by
  induction L with
  | nil => simp
  | cons a t ih =>
      simp only [List.map_cons, List.sum_cons, List.length_cons]
      rw [h a (List.mem_cons_self a t), ih (fun b hb => h b (List.mem_cons_of_mem a hb))]
      ring

/-- Counterexample to claim C3: with grid size 16 (and requested patch count
4 in the claimed scenario) generateTerrain does not produce 4 patches — it
produces 64, because patchesPerRow is the constant square root of 64
regardless of any configured patch count. -/
theorem generateTerrain_example_not_four_patches :
    (generateTerrain (fun n => n) 16 1 10).length ≠ 4 := by
  rw [generateTerrain_length]
  decide

/-- Claim C3 as amended: generateTerrain ignores any requested patch count
and always produces 64 patches in an 8 by 8 tiling; each patch has
(cellsPerPatch+1)^2 vertices and cellsPerPatch^2 times 6 indices where
cellsPerPatch is gridSize divided by 8; for grid size 16 this gives 64
patches of 9 vertices and 24 indices each, 576 vertices and 512 triangles
in total. -/
theorem generateTerrain_always_64_patches (perm : ℕ → ℕ) (gridSize : ℕ) (pw hs : ℚ) :
    (generateTerrain perm gridSize pw hs).length = 64 ∧
    (∀ p ∈ generateTerrain perm gridSize pw hs,
      p.vertices.length = (gridSize / 8 + 1) ^ 2 ∧
      p.indices.length = (gridSize / 8) ^ 2 * 6) ∧
    getTotalVertices (generateTerrain perm 16 pw hs) = 576 ∧
    getTotalTriangles (generateTerrain perm 16 pw hs) = 512 := by
  have hshape : ∀ (g : ℕ) (p : TerrainPatch), p ∈ generateTerrain perm g pw hs →
      p.vertices.length = (g / 8 + 1) ^ 2 ∧ p.indices.length = (g / 8) ^ 2 * 6 := by
    intro g p hp
    obtain ⟨row, col, hrow, hcol, hpe⟩ := generateTerrain_mem perm g pw hs p hp
    subst hpe
    exact ⟨createPatch_vertices_length perm g pw hs _ _ _,
      by rw [createPatch_indices_def, buildIndices_length]⟩
  refine ⟨generateTerrain_length perm gridSize pw hs, hshape gridSize, ?_, ?_⟩
  · rw [getTotalVertices,
      sum_map_const_of_mem _ _ 9 (fun p hp => by simpa using (hshape 16 p hp).1),
      generateTerrain_length]
  · rw [getTotalTriangles,
      sum_map_const_of_mem _ _ 8 (fun p hp => by rw [(hshape 16 p hp).2]; decide),
      generateTerrain_length]

/-- Witness for the amended claim C3 at the identity permutation, grid size
16, patch world size 1 and height scale 10. -/
theorem generateTerrain_always_64_patches_witness :
    (generateTerrain (fun n => n) 16 1 10).length = 64 ∧
    getTotalVertices (generateTerrain (fun n => n) 16 1 10) = 576 ∧
    getTotalTriangles (generateTerrain (fun n => n) 16 1 10) = 512 :=
  ⟨(generateTerrain_always_64_patches (fun n => n) 16 1 10).1,
   (generateTerrain_always_64_patches (fun n => n) 16 1 10).2.2.1,
   (generateTerrain_always_64_patches (fun n => n) 16 1 10).2.2.2⟩

theorem foldl_max_bounds (l : List ℝ) (init : ℝ) :
    init ≤ l.foldl max init ∧ ∀ a ∈ l, a ≤ l.foldl max init := by
  induction l generalizing init with
  | nil => simp
  | cons b t ih =>
      refine ⟨le_trans (le_max_left init b) (ih (max init b)).1, ?_⟩
      intro a ha
      rcases List.mem_cons.mp ha with h | h
      · subst h
        exact le_trans (le_max_right init a) (ih (max init a)).1
      · exact (ih (max init b)).2 a h

theorem foldl_max_attained (l : List ℝ) (init : ℝ) :
    l.foldl max init = init ∨ l.foldl max init ∈ l := by
  induction l generalizing init with
  | nil => left; rfl
  | cons b t ih =>
      rcases ih (max init b) with h | h
      · rcases max_choice init b with hm | hm
        · left
          simpa [hm] using h
        · right
          rw [List.foldl_cons, h, hm]
          exact List.mem_cons_self b t
      · right
        exact List.mem_cons_of_mem b h

theorem foldl_vecAdd_components (l : List (ℚ × ℚ × ℚ)) (init : ℚ × ℚ × ℚ) :
    l.foldl vecAdd init =
      (init.1 + (l.map fun v => v.1).sum,
       init.2.1 + (l.map fun v => v.2.1).sum,
       init.2.2 + (l.map fun v => v.2.2).sum) := by
  induction l generalizing init with
  | nil => simp
  | cons b t ih =>
      simp only [List.foldl_cons, List.map_cons, List.sum_cons, ih, vecAdd]
      refine Prod.ext ?_ (Prod.ext ?_ ?_) <;> simp <;> ring

/-- The centroid as the spec words it: the arithmetic mean of the vertex
positions, componentwise. -/
def specCentroid (l : List (ℚ × ℚ × ℚ)) : ℚ × ℚ × ℚ :=
  ((l.map fun v => v.1).sum / (l.length : ℚ),
   (l.map fun v => v.2.1).sum / (l.length : ℚ),
   (l.map fun v => v.2.2).sum / (l.length : ℚ))

theorem createPatch_center_eq_specCentroid (perm : ℕ → ℕ) (gridSize : ℕ) (pw hs : ℚ)
    (sx sz ps : ℕ) :
    (createPatch perm gridSize pw hs sx sz ps).center =
      specCentroid ((createPatch perm gridSize pw hs sx sz ps).vertices.map
        fun v => v.position) := by
  have hfold : ∀ (l : List TerrainVertex),
      l.foldl (fun acc v => vecAdd acc v.position) (0, 0, 0) =
        (l.map fun v => v.position).foldl vecAdd (0, 0, 0) := by
    intro l
    rw [List.foldl_map]
  show vecDiv (((createPatch perm gridSize pw hs sx sz ps).vertices).foldl
      (fun acc v => vecAdd acc v.position) (0, 0, 0))
      (((createPatch perm gridSize pw hs sx sz ps).vertices).length : ℚ) = _
  rw [hfold, foldl_vecAdd_components]
  simp only [vecDiv, specCentroid, List.map_map, List.length_map]
  refine Prod.ext ?_ (Prod.ext ?_ ?_) <;> simp [Function.comp]

/-- Claim C7: for every generated patch the centroid equals the arithmetic
mean of the vertex positions, the bounding radius is nonnegative, no vertex
lies farther from the centroid than the bounding radius, and the bounding
radius is attained as the distance from the centroid to some vertex — it is
exactly the maximum distance (the equalities are exact, subsuming the 1e-5
tolerance). -/
theorem createPatch_centroid_and_radius (perm : ℕ → ℕ) (gridSize : ℕ) (pw hs : ℚ)
    (sx sz ps : ℕ) :
    (createPatch perm gridSize pw hs sx sz ps).center =
      specCentroid ((createPatch perm gridSize pw hs sx sz ps).vertices.map
        fun v => v.position) ∧
    (0 : ℝ) ≤ (createPatch perm gridSize pw hs sx sz ps).boundingRadius ∧
    (∀ v ∈ (createPatch perm gridSize pw hs sx sz ps).vertices,
      distR v.position (createPatch perm gridSize pw hs sx sz ps).center ≤
        (createPatch perm gridSize pw hs sx sz ps).boundingRadius) ∧
    (∃ v ∈ (createPatch perm gridSize pw hs sx sz ps).vertices,
      distR v.position (createPatch perm gridSize pw hs sx sz ps).center =
        (createPatch perm gridSize pw hs sx sz ps).boundingRadius) := by
  have hrad : (createPatch perm gridSize pw hs sx sz ps).boundingRadius =
      ((createPatch perm gridSize pw hs sx sz ps).vertices.map fun v =>
        distR v.position (createPatch perm gridSize pw hs sx sz ps).center).foldl max 0 :=
    rfl
  refine ⟨createPatch_center_eq_specCentroid perm gridSize pw hs sx sz ps, ?_, ?_, ?_⟩
  · rw [hrad]
    exact (foldl_max_bounds _ 0).1
  · intro v hv
    rw [hrad]
    exact (foldl_max_bounds _ 0).2 _ (List.mem_map_of_mem _ hv)
  · have hne : 0 < (createPatch perm gridSize pw hs sx sz ps).vertices.length := by
      rw [createPatch_vertices_length]
      positivity
    obtain ⟨v0, hv0⟩ := List.exists_mem_of_length_pos hne
    rcases foldl_max_attained ((createPatch perm gridSize pw hs sx sz ps).vertices.map
        fun v => distR v.position (createPatch perm gridSize pw hs sx sz ps).center) 0 with
      h | h
    · refine ⟨v0, hv0, le_antisymm ?_ ?_⟩
      · rw [hrad]
        exact (foldl_max_bounds _ 0).2 _ (List.mem_map_of_mem _ hv0)
      · rw [hrad, h]
        exact Real.sqrt_nonneg _
    · obtain ⟨v, hv, hveq⟩ := List.mem_map.mp h
      exact ⟨v, hv, by rw [hrad, hveq]⟩

/-- Witness for claim C7 at a concrete patch: the binder-free conjuncts of
the theorem at the identity permutation and lattice size 2. -/
theorem createPatch_centroid_and_radius_witness :
    (createPatch (fun n => n) 16 1 1 0 0 2).center =
      specCentroid ((createPatch (fun n => n) 16 1 1 0 0 2).vertices.map
        fun v => v.position) ∧
    (0 : ℝ) ≤ (createPatch (fun n => n) 16 1 1 0 0 2).boundingRadius :=
  ⟨(createPatch_centroid_and_radius (fun n => n) 16 1 1 0 0 2).1,
   (createPatch_centroid_and_radius (fun n => n) 16 1 1 0 0 2).2.1⟩
